import Mathlib

set_option maxHeartbeats 1000000
set_option maxRecDepth 8000

/-!
Verification of the interaction state and dispatch protocol of the pokedex
bot (package `pkg/command`, with the dispatcher in `pkg/bot`).

The binary state codec (`encoder.encode` / `decoder.decodeValue`) is a
reflection-driven marshaller over the Go kinds int, bool, string, pointer
and struct.  We embed the universe of Go values it traverses as `GoValue`,
the corresponding structural types as `GoType`, and translate the encoder
and decoder line by line: a Go `int` is written as `int32(value.Int())`
(truncation to 32 bits, big-endian), a bool as one byte, a string as a
one-byte length prefix `uint8(len(b))` (truncation mod 256) followed by the
raw bytes, a pointer as a presence byte followed by the element, a struct
as the concatenation of its fields in declared order.  Bytes are modelled
as `Nat` (the encoder only ever emits values < 256).
-/

inductive GoValue : Type where
  | int (n : Int)
  | bool (b : Bool)
  | str (s : List Nat)
  | ptr (v : Option GoValue)
  | strct (fields : List GoValue)
deriving Repr

inductive GoType : Type where
  | int
  | bool
  | str
  | ptr (t : GoType)
  | strct (ts : List GoType)
deriving Repr

/-- Errors of the decoder.  Every failure of the Go decoder on a value-shaped
target is a short read (`binary.Read` / `io.ReadFull` hitting EOF), wrapped
into an error chain ending in `ErrDecodeOption`; the non-settable-target
branch cannot arise for the targets modelled here. -/
inductive DecodeError : Type where
  | truncated
deriving Repr, DecidableEq

/-- Big-endian bytes of a 32-bit word, as written by
`binary.Write(e.Writer, binary.BigEndian, int32(...))`. -/
def be4 (u : Nat) : List Nat :=
  [u / 2 ^ 24 % 256, u / 2 ^ 16 % 256, u / 2 ^ 8 % 256, u % 256]

/-- The signed 32-bit integer read by `binary.Read` from four big-endian
bytes, sign-extended to a Go `int` by `value.SetInt(int64(v))`. -/
def int32ofBytes (b0 b1 b2 b3 : Nat) : Int :=
  let u : Nat := b0 * 2 ^ 24 + b1 * 2 ^ 16 + b2 * 2 ^ 8 + b3
  if u < 2 ^ 31 then (u : Int) else (u : Int) - 2 ^ 32

/-- Model of `encoder.encode` (config.go 407-461).  Total on the supported kinds: the
Go function's only error paths there are writer failures (impossible for
`bytes.Buffer`) and unsupported kinds (excluded by the `GoValue` universe).
In particular a string writes `uint8(len(b))` — the length truncated mod
256 — and then all of its bytes, with no length check. -/
def encode : GoValue → List Nat
  | .int n => be4 ((n % 2 ^ 32).toNat)
  | .bool b => [if b then 1 else 0]
  | .str s => (s.length % 256) :: s
  | .ptr none => [0]
  | .ptr (some v) => 1 :: encode v
  | .strct [] => []
  | .strct (v :: vs) => encode v ++ encode (.strct vs)

/-- Model of `marshal` (config.go 463-472): run the encoder into a fresh buffer. -/
def marshal (v : GoValue) : List Nat := encode v

/-- Model of `decoder.decodeValue` (config.go 478-544), directed by the structural
type of the target, returning the decoded value and the unread remainder of
the stream.  The `.ok _` fall-through in the struct case is unreachable
(struct decoding always returns a struct, see `decodeValue_strct_shape`). -/
def decodeValue : GoType → List Nat → Except DecodeError (GoValue × List Nat)
  | .int, b0 :: b1 :: b2 :: b3 :: rest => .ok (.int (int32ofBytes b0 b1 b2 b3), rest)
  | .int, _ => .error .truncated
  | .bool, b :: rest => .ok (.bool (decide (b ≠ 0)), rest)
  | .bool, [] => .error .truncated
  | .str, l :: rest =>
      if l ≤ rest.length then .ok (.str (rest.take l), rest.drop l)
      else .error .truncated
  | .str, [] => .error .truncated
  | .ptr t, f :: rest =>
      if f ≠ 0 then
        match decodeValue t rest with
        | .ok (v, rest') => .ok (.ptr (some v), rest')
        | .error e => .error e
      else .ok (.ptr none, rest)
  | .ptr _, [] => .error .truncated
  | .strct [], s => .ok (.strct [], s)
  | .strct (t :: ts), s =>
      match decodeValue t s with
      | .error e => .error e
      | .ok (v, s₁) =>
        match decodeValue (.strct ts) s₁ with
        | .error e => .error e
        | .ok (.strct vs, s₂) => .ok (.strct (v :: vs), s₂)
        | .ok _ => .error .truncated
termination_by t _ => sizeOf t

/-- Model of `unmarshal[T]` (config.go 555-564): decode a fresh `T` from the reader. -/
def unmarshal (t : GoType) (s : List Nat) : Except DecodeError (GoValue × List Nat) :=
  decodeValue t s

/-- The Go value `v` inhabits the structural type `t` (the target type the
decoder is instantiated with matches the value the encoder traversed). -/
def hasTy : GoValue → GoType → Bool
  | .int _, .int => true
  | .bool _, .bool => true
  | .str _, .str => true
  | .ptr none, .ptr _ => true
  | .ptr (some v), .ptr t => hasTy v t
  | .strct [], .strct [] => true
  | .strct (v :: vs), .strct (t :: ts) => hasTy v t && hasTy (.strct vs) (.strct ts)
  | _, _ => false

/-- Values representable on the wire without truncation: every Go int fits
in 32 bits and every string is at most 255 bytes long. -/
def validVal : GoValue → Bool
  | .int n => decide (-(2 ^ 31) ≤ n) && decide (n < 2 ^ 31)
  | .bool _ => true
  | .str s => decide (s.length ≤ 255)
  | .ptr none => true
  | .ptr (some v) => validVal v
  | .strct [] => true
  | .strct (v :: vs) => validVal v && validVal (.strct vs)

/-!
Token construction and the pagination controller.

`customID` (config.go 90-105) builds the opaque identifier of a button:
the marshalled routing prefix (a `*string` naming the target command,
`nil` for self), the one-byte action tag `a.Name()`, the marshalled
action payload, and four random bytes.  The randomness is threaded in as
the `uuid` argument.  `paginator[T]` (tag `'p'` = 112) carries the options
and a `Page{Limit, Offset int}`; `followUp[T]` (tag `'f'` = 102) carries
only the options.
-/

structure Page where
  limit : Int
  offset : Int
deriving Repr, DecidableEq

structure Paginator where
  options : GoValue
  page : Page
deriving Repr

/-- The `paginator[T]` struct as traversed by the reflection encoder:
field `Options` then field `Page`, itself the struct `{Limit, Offset}`. -/
def paginatorValue (p : Paginator) : GoValue :=
  .strct [p.options, .strct [.int p.page.limit, .int p.page.offset]]

/-- The `followUp[T]` struct: single field `Options`. -/
def followUpValue (opts : GoValue) : GoValue :=
  .strct [opts]

/-- The two `action` implementations (`paginator[T]` and `followUp[T]`). -/
inductive BtnAction : Type where
  | paginate (p : Paginator)
  | follow (opts : GoValue)

/-- Go `action.Name()`: `'p'` for `paginator[T]`, `'f'` for `followUp[T]`. -/
def BtnAction.tag : BtnAction → Nat
  | .paginate _ => 112
  | .follow _ => 102

/-- The value marshalled as the action payload. -/
def BtnAction.payload : BtnAction → GoValue
  | .paginate p => paginatorValue p
  | .follow opts => followUpValue opts

/-- Model of `customID` (config.go 90-105): `marshal(cmdName) + a.Name() + marshal(a)
+ uuid`.  The routing prefix is a `*string`.  No length check of any kind is
performed; the only Go error paths are marshal failures, which cannot occur
for the supported action shapes. -/
def customID (a : BtnAction) (cmdName : Option (List Nat)) (uuid : List Nat) : List Nat :=
  marshal (.ptr (cmdName.map .str)) ++ [a.tag] ++ marshal a.payload ++ uuid

/-- One rendered pagination control: its opaque identifier and whether it is
disabled (`discordgo.Button.CustomID` / `.Disabled`). -/
structure BtnControl where
  customId : List Nat
  disabled : Bool
deriving Repr

/-- The home cursor built by `moveButtons`: same options, offset 0. -/
def homePaginator (p : Paginator) : Paginator :=
  { options := p.options, page := { limit := p.page.limit, offset := 0 } }

/-- The previous-page cursor built by `moveButtons`: offset decreased by
the limit (`prevOffset := p.Page.Offset - p.Page.Limit`), not clamped. -/
def prevPaginator (p : Paginator) : Paginator :=
  { options := p.options
    page := { limit := p.page.limit, offset := p.page.offset - p.page.limit } }

/-- The next-page cursor built by `moveButtons`: offset increased by the limit. -/
def nextPaginator (p : Paginator) : Paginator :=
  { options := p.options
    page := { limit := p.page.limit, offset := p.page.offset + p.page.limit } }

/-- Model of `paginator[T].moveButtons` (util.go 93-165).  The command resolved from
the registry by `optionCommand[T]` is threaded in as `cmdName` (already an
`Except`, since that lookup is the first possible error source); the three
4-byte nonces consumed by the `customID` calls are `u1 u2 u3`.  At offset 0
with no next page no controls are produced; otherwise the home, previous and
next buttons are returned with their cursors serialized by `customID`, and
`disabled` mirrors the three conditions of the source (`p.Page.Offset == 0`,
`prevOffset < 0`, `!hasNext`). -/
def moveButtons (cmdName : Except Unit (Option (List Nat))) (p : Paginator)
    (hasNext : Bool) (u1 u2 u3 : List Nat) :
    Except Unit (Option (BtnControl × BtnControl × BtnControl)) :=
  match cmdName with
  | .error e => .error e
  | .ok name =>
    if p.page.offset = 0 ∧ hasNext = false then .ok none
    else
      .ok (some
        ({ customId := customID (.paginate (homePaginator p)) name u1
           disabled := decide (p.page.offset = 0) },
         { customId := customID (.paginate (prevPaginator p)) name u2
           disabled := decide (p.page.offset - p.page.limit < 0) },
         { customId := customID (.paginate (nextPaginator p)) name u3
           disabled := !hasNext }))

/-!
Button dispatch.

`command[T].Button` (config.go 198-267) reads one action byte from the
reader (already positioned past the routing prefix by the bot layer), then
dispatches: `'p'` unmarshals a `paginator[T]` and the pagination response
*edits the original message in place* (`ChannelMessageEditComplex` on
`interaction.Message.ID`); `'f'` unmarshals a `followUp[T]` and the
response *is posted as a new message replying to the original*
(`ChannelMessageSendEmbedsReply` with `interaction.Message.Reference()`);
any other byte returns an error wrapping `ErrUnrecognizedInteraction`.
Handlers are threaded as function-valued fields; response bodies are
abstract (`Nat`); the discord session calls are modelled as the two
distinct `DispatchEffect`s, which is the observable the spec talks about.
-/

/-- Unmarshalling into `paginator[T]`: the reflection decoder walks field
`Options` (of structural type `t`) and then the `Page` struct (`Limit`,
`Offset`, both Go ints).  The two fall-through branches are unreachable
since decoding at type `.int` always yields an `.int`. -/
def decodePaginator (t : GoType) (s : List Nat) :
    Except DecodeError (Paginator × List Nat) :=
  match decodeValue t s with
  | .error e => .error e
  | .ok (opts, s₁) =>
    match decodeValue .int s₁ with
    | .error e => .error e
    | .ok (.int l, s₂) =>
      match decodeValue .int s₂ with
      | .error e => .error e
      | .ok (.int o, s₃) => .ok (⟨opts, ⟨l, o⟩⟩, s₃)
      | .ok _ => .error .truncated
    | .ok _ => .error .truncated

/-- Unmarshalling into `followUp[T]`: the single field `Options`. -/
def decodeFollowUp (t : GoType) (s : List Nat) :
    Except DecodeError (GoValue × List Nat) :=
  decodeValue t s

/-- Errors surfaced by `command[T]` dispatch.  `.unrecognized` stands for an
error chain wrapping `ErrUnrecognizedInteraction`; `.panicNilPaginate`
marks the one path where the Go code would call a nil `cmd.paginate`
function value (a run-time panic, kept distinct here). -/
inductive DispatchError : Type where
  | readAction
  | decodeFail (e : DecodeError)
  | handlerFail
  | unrecognized
  | panicNilPaginate
deriving Repr, DecidableEq

/-- The two structurally distinct response deliveries of the button
handler. -/
inductive DispatchEffect : Type where
  | editOriginal (body : Nat)
  | replyToOriginal (body : Nat)
deriving Repr, DecidableEq

/-- One registered `command[T]`: its option structural type and the
`handle` / `paginate` / `limit` capability fields. -/
structure Cmd where
  optTy : GoType
  handle : Option (GoValue → Except Unit Nat)
  paginate : Option (Paginator → Except Unit Nat)
  limit : Option Int

/-- Model of `command[T].responseBody` (config.go 135-166): prefer the direct
handler; otherwise a paginate handler plus a configured limit starts at
offset 0; otherwise the command has no handler and the error wraps
`ErrUnrecognizedInteraction`. -/
def responseBody (cmd : Cmd) (opt : GoValue) : Except DispatchError Nat :=
  match cmd.handle with
  | some h =>
    match h opt with
    | .ok body => .ok body
    | .error _ => .error .handlerFail
  | none =>
    match cmd.paginate, cmd.limit with
    | some pg, some lim =>
      match pg ⟨opt, ⟨lim, 0⟩⟩ with
      | .ok body => .ok body
      | .error _ => .error .handlerFail
    | _, _ => .error .unrecognized

/-- Model of `command[T].Button` (config.go 198-267), acting on the bytes that follow
the routing prefix. -/
def commandButton (cmd : Cmd) (input : List Nat) : Except DispatchError DispatchEffect :=
  match input with
  | [] => .error .readAction
  | a :: rest =>
    if a = 112 then
      match decodePaginator cmd.optTy rest with
      | .error e => .error (.decodeFail e)
      | .ok (p, _) =>
        match cmd.paginate with
        | none => .error .panicNilPaginate
        | some pg =>
          match pg p with
          | .error _ => .error .handlerFail
          | .ok body => .ok (.editOriginal body)
    else if a = 102 then
      match decodeFollowUp cmd.optTy rest with
      | .error e => .error (.decodeFail e)
      | .ok (opts, _) =>
        match responseBody cmd opts with
        | .error e => .error e
        | .ok body => .ok (.replyToOriginal body)
    else .error .unrecognized

/-- Model of `ButtonFollowUp` (config.go 107-114): unmarshal the `*string` routing
prefix off the front of the custom identifier.  The fall-through branch is
unreachable (decoding at `.ptr .str` always yields a pointer to a string). -/
def ButtonFollowUp (s : List Nat) :
    Except DecodeError (Option (List Nat) × List Nat) :=
  match decodeValue (.ptr .str) s with
  | .error e => .error e
  | .ok (.ptr none, rest) => .ok (none, rest)
  | .ok (.ptr (some (.str name)), rest) => .ok (some name, rest)
  | .ok _ => .error .truncated

/-- Association-list lookup mirroring `bot.commands[name]`. -/
def lookupCmd : List (List Nat × Cmd) → List Nat → Option Cmd
  | [], _ => none
  | (n, c) :: rest, name => if n = name then some c else lookupCmd rest name

/-- Errors of the bot-level button branch (each is logged and dropped by
the dispatcher). -/
inductive BotError : Type where
  | followUpFail (e : DecodeError)
  | unknownCommand
  | cmdErr (e : DispatchError)
deriving Repr, DecidableEq

/-- The button branch of the bot dispatcher (bot.go 199-227): read the
routing prefix with `ButtonFollowUp`, fall back to the name of the
command that produced the original message when the prefix is absent,
resolve the target in the registry, and hand the remaining bytes to
`command[T].Button`. -/
def botButtonDispatch (registry : List (List Nat × Cmd)) (origName : List Nat)
    (customId : List Nat) : Except BotError DispatchEffect :=
  match ButtonFollowUp customId with
  | .error e => .error (.followUpFail e)
  | .ok (pfx, rest) =>
    match lookupCmd registry (pfx.getD origName) with
    | none => .error .unknownCommand
    | some cmd =>
      match commandButton cmd rest with
      | .error e => .error (.cmdErr e)
      | .ok eff => .ok eff

/-!
Option decoding.

`decodeOptions` (config.go 316-399) populates a statically declared option
structure from the platform's option tree.  The target structure is
described by its reflected shape: a list of fields, each with the wire name
from its `option` tag (`none` when the tag is empty, in which case the
field is skipped when the name map is built) and a field shape.  Supported
field shapes are the Go kinds the switch handles: `string`, `int`, `bool`,
the three `discordField` instantiations (a scalar plus a `Focused` flag),
one level of pointer, and a nested struct (subcommand).  Incoming nodes
carry a name, a declared type, the typed accessor results and the
`Focused` flag.
-/

inductive DKind : Type where
  | dstr
  | dint
  | dbool
deriving Repr, DecidableEq

inductive OType : Type where
  | string
  | integer
  | boolean
  | subCommand
  | other
deriving Repr, DecidableEq

inductive FTy : Type where
  | fstring
  | fint
  | fbool
  | fdiscord (k : DKind)
  | fptr (t : FTy)
  | fstruct (fields : List (Option String × FTy))
deriving Repr

inductive FVal : Type where
  | vstring (s : String)
  | vint (n : Int)
  | vbool (b : Bool)
  | vdstring (value : String) (focused : Bool)
  | vdint (value : Int) (focused : Bool)
  | vdbool (value : Bool) (focused : Bool)
  | vptr (v : Option FVal)
  | vstruct (fields : List FVal)
deriving Repr

/-- One node of `[]*discordgo.ApplicationCommandInteractionDataOption`:
name, declared type, the typed accessor results, the `Focused` flag and
the child options of a subcommand. -/
structure ONode : Type where
  name : String
  typ : OType
  sval : String
  ival : Int
  bval : Bool
  focused : Bool
  children : List ONode
deriving Repr

mutual

/-- The zero value `reflect.New` produces for a field shape (used for
`var structure T` and for pointer allocation). -/
def zeroVal : FTy → FVal
  | .fstring => .vstring ""
  | .fint => .vint 0
  | .fbool => .vbool false
  | .fdiscord .dstr => .vdstring "" false
  | .fdiscord .dint => .vdint 0 false
  | .fdiscord .dbool => .vdbool false false
  | .fptr _ => .vptr none
  | .fstruct fs => .vstruct (zeroFields fs)

/-- Zero values of a struct's field list. -/
def zeroFields : List (Option String × FTy) → List FVal
  | [] => []
  | (_, t) :: rest => zeroVal t :: zeroFields rest
end

/-- Errors of `decodeOptions`.  Every constructor corresponds to a Go error
chain wrapping `ErrDecodeOption`: an incoming name absent from the schema
("unexpected option name"), a node whose declared type does not match the
field's kind ("unexpected type"), or a node type outside the switch
("unsupported type"). -/
inductive OErr : Type where
  | unknownName (name : String)
  | unexpectedType
  | unsupportedType
deriving Repr, DecidableEq

/-- The name-to-field map built from the `option` struct tags: untagged
fields are skipped, and a later field with the same tag overwrites an
earlier one (Go map insertion order).  Returns the index of the matching
field. -/
def lookupIdx : List (Option String × FTy) → String → Option Nat
  | [], _ => none
  | (tag, _) :: rest, name =>
    match lookupIdx rest name with
    | some i => some (i + 1)
    | none => if tag = some name then some 0 else none

mutual

/-- Model of `decodeOptions` (config.go 316-399): walk the incoming nodes in order;
each is looked up in the tag map (an unknown name is an error before
anything else happens for that node), then written through `applyNode`.
The structure being populated in place is threaded as `cur`. -/
def decodeOptions (schema : List (Option String × FTy)) (cur : List FVal) :
    List ONode → Except OErr (List FVal)
  | [] => .ok cur
  | node :: rest =>
    match lookupIdx schema node.name with
    | none => .error (.unknownName node.name)
    | some i =>
      match schema.get? i, cur.get? i with
      | some (_, ty), some old =>
        match applyNode ty old node with
        | .error e => .error e
        | .ok newv => decodeOptions schema (cur.set i newv) rest
      | _, _ => .error (.unknownName node.name)
termination_by nodes => 3 * sizeOf nodes

/-- One pointer unwrap: a pointer field is (re)allocated to a fresh zero
element before the node is written into it; any other field is written in
place. -/
def applyNode (ty : FTy) (cur : FVal) (node : ONode) : Except OErr FVal :=
  match ty with
  | .fptr t =>
    match applyCore t (zeroVal t) node with
    | .error e => .error e
    | .ok v => .ok (.vptr (some v))
  | _ =>
    match applyCore ty cur node with
    | .error e => .error e
    | .ok v => .ok v
termination_by 3 * sizeOf node + 2

/-- The type switch of `decodeOptions` after the pointer unwrap, including
the `discordField` unwrap (zero the backing value, record `Focused`, then
require the backing kind to match the node's declared type).  A subcommand
node recurses into the current contents of a plain struct field. -/
def applyCore (ty : FTy) (cur : FVal) (node : ONode) : Except OErr FVal :=
  match node.typ with
  | .string =>
    match ty with
    | .fstring => .ok (.vstring node.sval)
    | .fdiscord .dstr => .ok (.vdstring node.sval node.focused)
    | _ => .error .unexpectedType
  | .integer =>
    match ty with
    | .fint => .ok (.vint node.ival)
    | .fdiscord .dint => .ok (.vdint node.ival node.focused)
    | _ => .error .unexpectedType
  | .boolean =>
    match ty with
    | .fbool => .ok (.vbool node.bval)
    | .fdiscord .dbool => .ok (.vdbool node.bval node.focused)
    | _ => .error .unexpectedType
  | .subCommand =>
    match ty, cur with
    | .fstruct fs, .vstruct curVs =>
      match decodeOptions fs curVs node.children with
      | .error e => .error e
      | .ok vs => .ok (.vstruct vs)
    | _, _ => .error .unexpectedType
  | .other => .error .unsupportedType
termination_by 3 * sizeOf node + 1
decreasing_by cases node; simp_arith

end

/-- Model of `command[T].Handle` up to the handler call (config.go 168-196): decode
the options into a zero-initialised structure, then hand the result to the
response logic; a decode failure propagates before any handler runs. -/
def commandHandle (schema : List (Option String × FTy)) (nodes : List ONode)
    (handler : List FVal → Except OErr Nat) : Except OErr Nat :=
  match decodeOptions schema (zeroFields schema) nodes with
  | .error e => .error e
  | .ok v => handler v

/-!
The `/dex` autocomplete handler (dex.go 215-237).  Its option structure is
`dexOptions{Pokemon *struct{Name discordField[string]}}`.  The handler
switches on which subcommand is populated, then requires the `pokemon`
field to be focused; the "no recognized subcommand in focus" and "no
recognized field in focus" failures both wrap `ErrCommandFormat`
(util.go 14).  The sentinel errors relevant to autocomplete dispatch are
modelled as `CmdSentinel`.  The search collaborator (database-backed
`pokemonSearcher`, via `searchChoices`) is threaded in as a function.
-/

structure DiscordFieldString where
  value : String
  focused : Bool
deriving Repr, DecidableEq

structure DexPokemonSub where
  name : DiscordFieldString
deriving Repr, DecidableEq

structure DexOptions where
  pokemon : Option DexPokemonSub
deriving Repr, DecidableEq

/-- The sentinel errors a failed autocomplete can wrap:
`ErrCommandFormat` (util.go 14) and `ErrUnrecognizedInteraction`
(config.go 133). -/
inductive CmdSentinel : Type where
  | commandFormat
  | unrecognizedInteraction
deriving Repr, DecidableEq

/-- Model of `dexResponder.Autocomplete` (dex.go 215-237). -/
def dexAutocomplete (search : String → List String) (opt : DexOptions) :
    Except CmdSentinel (List String) :=
  match opt.pokemon with
  | some sub =>
    if sub.name.focused then .ok (search sub.name.value)
    else .error .commandFormat
  | none => .error .commandFormat

/-!
Helper lemmas about the codec.
-/

/-- Decoding at a struct type always produces a struct value. -/
theorem decodeValue_strct_shape (ts : List GoType) (s : List Nat) (v : GoValue)
    (r : List Nat) (h : decodeValue (.strct ts) s = .ok (v, r)) :
    ∃ vs, v = .strct vs := by
  match ts with
  | [] =>
    simp only [decodeValue] at h
    exact ⟨[], by simp_all⟩
  | t :: ts' =>
    rw [decodeValue] at h
    cases h1 : decodeValue t s with
    | error e => simp [h1] at h
    | ok p =>
      obtain ⟨v₁, s₁⟩ := p
      rw [h1] at h
      simp only at h
      cases h2 : decodeValue (.strct ts') s₁ with
      | error e => simp [h2] at h
      | ok q =>
        obtain ⟨w, s₂⟩ := q
        rw [h2] at h
        cases w with
        | strct vs => exact ⟨v₁ :: vs, by simp_all⟩
        | int n => simp at h
        | bool b => simp at h
        | str s => simp at h
        | ptr p => simp at h

/-- Workhorse lemma: a successful decode consumes a prefix `c` of the
stream, its result depends only on `c` (any suffix may replace the
remainder), and every strict truncation of `c` makes the decode fail with
a short read. -/
theorem decodeValue_spec_aux :
    ∀ (n : Nat) (t : GoType), sizeOf t ≤ n →
      ∀ (s : List Nat) (v : GoValue) (rest : List Nat),
        decodeValue t s = .ok (v, rest) →
        ∃ c, s = c ++ rest
          ∧ (∀ r', decodeValue t (c ++ r') = .ok (v, r'))
          ∧ (∀ k, k < c.length → decodeValue t (c.take k) = .error .truncated) := by
  intro n
  induction n with
  | zero =>
    intro t ht
    exfalso
    cases t <;> simp_arith at ht
  | succ n ih =>
    intro t ht s v rest h
    cases t with
    | int =>
      match s with
      | [] => simp [decodeValue] at h
      | [b0] => simp [decodeValue] at h
      | [b0, b1] => simp [decodeValue] at h
      | [b0, b1, b2] => simp [decodeValue] at h
      | b0 :: b1 :: b2 :: b3 :: s' =>
        simp only [decodeValue, Except.ok.injEq, Prod.mk.injEq] at h
        obtain ⟨hv, hr⟩ := h
        subst hv
        subst hr
        refine ⟨[b0, b1, b2, b3], rfl, ?_, ?_⟩
        · intro r'
          simp [decodeValue]
        · intro k hk
          simp only [List.length_cons, List.length_nil] at hk
          interval_cases k <;> simp [decodeValue]
    | bool =>
      match s with
      | [] => simp [decodeValue] at h
      | b :: s' =>
        simp only [decodeValue, Except.ok.injEq, Prod.mk.injEq] at h
        obtain ⟨hv, hr⟩ := h
        subst hv
        subst hr
        refine ⟨[b], rfl, ?_, ?_⟩
        · intro r'
          simp [decodeValue]
        · intro k hk
          simp only [List.length_cons, List.length_nil] at hk
          interval_cases k <;> simp [decodeValue]
    | str =>
      match s with
      | [] => simp [decodeValue] at h
      | l :: s' =>
        simp only [decodeValue] at h
        by_cases hl : l ≤ s'.length
        · rw [if_pos hl] at h
          simp only [Except.ok.injEq, Prod.mk.injEq] at h
          obtain ⟨hv, hr⟩ := h
          subst hv
          subst hr
          have hlen : (s'.take l).length = l := by
            rw [List.length_take]
            omega
          refine ⟨l :: s'.take l, by simp [List.take_append_drop], ?_, ?_⟩
          · intro r'
            have h1 : (s'.take l ++ r').take l = s'.take l := List.take_left' hlen
            have h2 : (s'.take l ++ r').drop l = r' := List.drop_left' hlen
            simp [decodeValue, h1, h2, hlen]
          · intro k hk
            simp only [List.length_cons] at hk
            match k with
            | 0 => simp [decodeValue]
            | j + 1 =>
              have hj : j < l := by omega
              have hjl : ((s'.take l).take j).length = j := by
                rw [List.length_take, List.length_take]
                omega
              simp only [List.take_succ_cons, decodeValue, hjl]
              rw [if_neg (by omega)]
        · rw [if_neg hl] at h
          simp at h
    | ptr t' =>
      match s with
      | [] => simp [decodeValue] at h
      | f :: s' =>
        simp only [decodeValue] at h
        by_cases hf : f ≠ 0
        · rw [if_pos hf] at h
          cases hin : decodeValue t' s' with
          | error e => rw [hin] at h; simp at h
          | ok p =>
            obtain ⟨v', rest'⟩ := p
            rw [hin] at h
            simp only [Except.ok.injEq, Prod.mk.injEq] at h
            obtain ⟨hv, hr⟩ := h
            subst hv
            subst hr
            have ht' : sizeOf t' ≤ n := by
              simp_arith at ht
              omega
            obtain ⟨c', hc1, hc2, hc3⟩ := ih t' ht' s' v' _ hin
            subst hc1
            refine ⟨f :: c', rfl, ?_, ?_⟩
            · intro r'
              simp only [List.cons_append, decodeValue, hc2 r']
              rw [if_pos hf]
            · intro k hk
              simp only [List.length_cons] at hk
              match k with
              | 0 => simp [decodeValue]
              | j + 1 =>
                simp only [List.take_succ_cons, decodeValue, hc3 j (by omega)]
                rw [if_pos hf]
        · rw [if_neg hf] at h
          simp only [Except.ok.injEq, Prod.mk.injEq] at h
          obtain ⟨hv, hr⟩ := h
          subst hv
          subst hr
          push_neg at hf
          subst hf
          refine ⟨[0], rfl, ?_, ?_⟩
          · intro r'
            simp [decodeValue]
          · intro k hk
            simp only [List.length_cons, List.length_nil] at hk
            interval_cases k <;> simp [decodeValue]
    | strct ts =>
      cases ts with
      | nil =>
        simp only [decodeValue, Except.ok.injEq, Prod.mk.injEq] at h
        obtain ⟨hv, hr⟩ := h
        subst hv
        subst hr
        refine ⟨[], rfl, ?_, ?_⟩
        · intro r'
          simp [decodeValue]
        · intro k hk
          simp at hk
      | cons t' ts' =>
        rw [decodeValue] at h
        cases h1 : decodeValue t' s with
        | error e => rw [h1] at h; simp at h
        | ok p =>
          obtain ⟨v₁, s₁⟩ := p
          rw [h1] at h
          simp only at h
          cases h2 : decodeValue (.strct ts') s₁ with
          | error e => rw [h2] at h; simp at h
          | ok q =>
            obtain ⟨w, s₂⟩ := q
            rw [h2] at h
            obtain ⟨vs, hw⟩ := decodeValue_strct_shape ts' s₁ w s₂ h2
            subst hw
            simp only [Except.ok.injEq, Prod.mk.injEq] at h
            obtain ⟨hv, hr⟩ := h
            subst hv
            subst hr
            have hsz : sizeOf t' ≤ n ∧ sizeOf (GoType.strct ts') ≤ n := by
              simp_arith at ht ⊢
              constructor <;> omega
            obtain ⟨c₁, hc11, hc12, hc13⟩ := ih t' hsz.1 s v₁ s₁ h1
            obtain ⟨c₂, hc21, hc22, hc23⟩ :=
              ih (.strct ts') hsz.2 s₁ (.strct vs) _ h2
            refine ⟨c₁ ++ c₂, ?_, ?_, ?_⟩
            · rw [hc11, hc21, List.append_assoc]
            · intro r'
              rw [List.append_assoc]
              simp only [decodeValue, hc12 (c₂ ++ r'), hc22 r']
            · intro k hk
              simp only [List.length_append] at hk
              rcases Nat.lt_or_ge k c₁.length with hlt | hge
              · rw [List.take_append_of_le_length (by omega)]
                simp only [decodeValue, hc13 k hlt]
              · have h0 : (0 : Nat) < c₂.length := by omega
                have e2 := hc23 (k - c₁.length) (by omega)
                have hke : k = c₁.length + (k - c₁.length) := by omega
                rw [hke, List.take_append]
                simp only [decodeValue, hc12 (c₂.take (k - c₁.length)), e2]

/-- Reading back the four big-endian bytes of `int32(n)` recovers `n`
whenever `n` fits in a signed 32-bit integer. -/
theorem int32ofBytes_be4 (n : Int) (h1 : -(2 ^ 31) ≤ n) (h2 : n < 2 ^ 31) :
    int32ofBytes ((n % 2 ^ 32).toNat / 2 ^ 24 % 256) ((n % 2 ^ 32).toNat / 2 ^ 16 % 256)
      ((n % 2 ^ 32).toNat / 2 ^ 8 % 256) ((n % 2 ^ 32).toNat % 256) = n := by
  have hnn : (0 : Int) ≤ n % 2 ^ 32 := Int.emod_nonneg n (by norm_num)
  have hcast : (((n % 2 ^ 32).toNat : Int)) = n % 2 ^ 32 := Int.toNat_of_nonneg hnn
  simp only [int32ofBytes]
  split <;> omega

/-- Decoding the encoding of a wire-representable value of matching
structural type succeeds, returns the value, and leaves any appended
suffix untouched. -/
theorem decode_encode_aux :
    ∀ (n : Nat) (v : GoValue), sizeOf v ≤ n →
      ∀ (t : GoType), hasTy v t = true → validVal v = true →
        ∀ rest, decodeValue t (encode v ++ rest) = .ok (v, rest) := by
  intro n
  induction n with
  | zero =>
    intro v hv
    exfalso
    cases v <;> simp_arith at hv
  | succ n ih =>
    intro v hsz t hty hval rest
    cases v with
    | int m =>
      cases t <;> simp [hasTy] at hty
      simp only [validVal, Bool.and_eq_true, decide_eq_true_eq] at hval
      simp only [encode, be4, List.cons_append, List.nil_append, decodeValue,
        Except.ok.injEq, Prod.mk.injEq, GoValue.int.injEq]
      exact ⟨int32ofBytes_be4 m hval.1 hval.2, trivial⟩
    | bool b =>
      cases t <;> simp [hasTy] at hty
      cases b <;> simp [encode, decodeValue]
    | str cs =>
      cases t <;> simp [hasTy] at hty
      simp only [validVal, decide_eq_true_eq] at hval
      have hmod : cs.length % 256 = cs.length := Nat.mod_eq_of_lt (by omega)
      simp only [encode, hmod, List.cons_append, decodeValue, List.length_append]
      rw [if_pos (by omega)]
      simp [List.take_left, List.drop_left]
    | ptr o =>
      cases t with
      | ptr t' =>
        cases o with
        | none => simp [encode, decodeValue]
        | some v' =>
          simp only [hasTy] at hty
          simp only [validVal] at hval
          have hsz' : sizeOf v' ≤ n := by
            simp_arith at hsz
            omega
          simp only [encode, List.cons_append, decodeValue,
            ih v' hsz' t' hty hval rest]
          rw [if_pos (by omega)]
      | int => cases o <;> simp [hasTy] at hty
      | bool => cases o <;> simp [hasTy] at hty
      | str => cases o <;> simp [hasTy] at hty
      | strct ts => cases o <;> simp [hasTy] at hty
    | strct fs =>
      cases t with
      | strct ts =>
        cases fs with
        | nil =>
          cases ts with
          | nil => simp [encode, decodeValue]
          | cons t' ts' => simp [hasTy] at hty
        | cons v' vs =>
          cases ts with
          | nil => simp [hasTy] at hty
          | cons t' ts' =>
            simp only [hasTy, Bool.and_eq_true] at hty
            simp only [validVal, Bool.and_eq_true] at hval
            have hsz' : sizeOf v' ≤ n ∧ sizeOf (GoValue.strct vs) ≤ n := by
              simp_arith at hsz ⊢
              constructor <;> omega
            have e1 := ih v' hsz'.1 t' hty.1 hval.1 (encode (.strct vs) ++ rest)
            have e2 := ih (.strct vs) hsz'.2 (.strct ts') hty.2 hval.2 rest
            simp only [encode, List.append_assoc, decodeValue, e1, e2]
      | int => cases fs <;> simp [hasTy] at hty
      | bool => cases fs <;> simp [hasTy] at hty
      | str => cases fs <;> simp [hasTy] at hty
      | ptr t' => cases fs <;> simp [hasTy] at hty

/-!
Claim theorems.
-/

/-- C1 (counterexample): the round-trip law fails for a supported value as
soon as the Go int does not fit in 32 bits.  `encode` truncates `2^31` to
the four bytes `80 00 00 00` and decoding sign-extends them back to
`-2^31`, a different value. -/
theorem c1_roundtrip_counterexample :
    decodeValue .int (encode (.int (2 ^ 31))) = .ok (.int (-(2 ^ 31)), [])
      ∧ GoValue.int (-(2 ^ 31)) ≠ GoValue.int (2 ^ 31) := by
  constructor
  · have h1 : ((2 ^ 31 : Int) % 2 ^ 32).toNat = 2 ^ 31 := by
      norm_num
      rfl
    simp only [encode, be4, h1, decodeValue, int32ofBytes]
    norm_num
  · simp only [ne_eq, GoValue.int.injEq]
    norm_num

/-- C1 (amended): for every value of a supported structural type whose Go
ints fit in a signed 32-bit integer and whose strings are at most 255
bytes, unmarshalling the string produced by marshalling the value yields
the value back (with the whole encoding consumed). -/
theorem c1_roundtrip_valid (t : GoType) (v : GoValue)
    (hty : hasTy v t = true) (hval : validVal v = true) :
    decodeValue t (encode v) = .ok (v, []) := by
  have h := decode_encode_aux (sizeOf v) v le_rfl t hty hval []
  simpa using h

/-- C1 witness: a struct of an int, an optional string and a bool
round-trips. -/
theorem c1_roundtrip_valid_witness :
    hasTy (.strct [.int 5, .ptr (some (.str [104, 105])), .bool true])
        (.strct [.int, .ptr .str, .bool]) = true
      ∧ validVal (.strct [.int 5, .ptr (some (.str [104, 105])), .bool true]) = true
      ∧ decodeValue (.strct [.int, .ptr .str, .bool])
          (encode (.strct [.int 5, .ptr (some (.str [104, 105])), .bool true]))
          = .ok (.strct [.int 5, .ptr (some (.str [104, 105])), .bool true], []) := by
  refine ⟨by simp [hasTy], by simp [validVal], ?_⟩
  exact c1_roundtrip_valid _ _ (by simp [hasTy]) (by simp [validVal])

/-- C4: contrary to the spec, a string longer than 255 bytes is *not*
rejected at encode time: the encoder writes the length prefix truncated
mod 256 (here 0) followed by all 256 raw bytes, and decoding the result
yields the empty string with the 256 payload bytes left over — the
length prefix disagrees with the bytes actually written. -/
theorem c4_long_string_not_rejected :
    encode (.str (List.replicate 256 97)) = 0 :: List.replicate 256 97
      ∧ decodeValue .str (encode (.str (List.replicate 256 97)))
          = .ok (.str [], List.replicate 256 97) := by
  have he : encode (.str (List.replicate 256 97)) = 0 :: List.replicate 256 97 := by
    simp [encode]
  refine ⟨he, ?_⟩
  rw [he]
  simp [decodeValue]

/-- C5: decoding a payload shorter than its structural type requires fails
with the short-read `DecodeError`: every strict truncation of the consumed
part of a successfully decoded stream decodes to `.error .truncated`, and
in particular a string whose length prefix promises more bytes than remain
is rejected.  (The embedding is a total function, so no panic or
out-of-bounds read is possible on any input.) -/
theorem c5_truncated_rejected :
    (∀ (t : GoType) (s : List Nat) (v : GoValue) (rest : List Nat),
        decodeValue t s = .ok (v, rest) →
        ∀ k, k < s.length - rest.length →
          decodeValue t (s.take k) = .error .truncated)
      ∧ (∀ (l : Nat) (bs : List Nat), bs.length < l →
          decodeValue .str (l :: bs) = .error .truncated) := by
  constructor
  · intro t s v rest h k hk
    obtain ⟨c, hc1, hc2, hc3⟩ := decodeValue_spec_aux (sizeOf t) t le_rfl s v rest h
    subst hc1
    have hkc : k < c.length := by
      rw [List.length_append] at hk
      omega
    rw [List.take_append_of_le_length (by omega)]
    exact hc3 k hkc
  · intro l bs h
    simp only [decodeValue]
    rw [if_neg (by omega)]

/-- C5 witness: an int decodes from four bytes but not from two of them,
and a string announcing 3 bytes with only 1 available is rejected. -/
theorem c5_truncated_rejected_witness :
    decodeValue .int ([0, 0, 0, 7].take 2) = .error .truncated
      ∧ decodeValue .str [3, 65] = .error .truncated := by
  constructor
  · refine c5_truncated_rejected.1 .int [0, 0, 0, 7] (.int 7) [] ?_ 2 (by simp)
    simp [decodeValue, int32ofBytes]
  · exact c5_truncated_rejected.2 3 [65] (by simp)

/-- C10: decoding consumes exactly the bytes the target type requires and
never inspects anything past them — appending any suffix (such as the
4-byte nonce of a token) leaves the decoded value unchanged and ends up in
the remainder. -/
theorem c10_decode_ignores_suffix (t : GoType) (s : List Nat) (v : GoValue)
    (rest ext : List Nat) (h : decodeValue t s = .ok (v, rest)) :
    decodeValue t (s ++ ext) = .ok (v, rest ++ ext) := by
  obtain ⟨c, hc1, hc2, _⟩ := decodeValue_spec_aux (sizeOf t) t le_rfl s v rest h
  subst hc1
  rw [List.append_assoc]
  exact hc2 (rest ++ ext)

/-- C10 witness: a bool decoded from `[1]` decodes identically with four
trailing nonce bytes appended. -/
theorem c10_decode_ignores_suffix_witness :
    decodeValue .bool ([1] ++ [9, 9, 9, 9]) = .ok (.bool true, [9, 9, 9, 9]) := by
  have h : decodeValue .bool [1] = .ok (.bool true, []) := by simp [decodeValue]
  have := c10_decode_ignores_suffix .bool [1] (.bool true) [] [9, 9, 9, 9] h
  simpa using this

/-- C2 (counterexample): a follow-up token whose routing prefix is a
120-byte command name is 127 characters long, beyond the 100-character
budget, yet `customID` returns it — there is no construction-time error. -/
theorem c2_oversized_token_counterexample :
    (customID (.follow (.strct [])) (some (List.replicate 120 97)) [0, 0, 0, 0]).length = 127
      ∧ 100 < (customID (.follow (.strct []))
          (some (List.replicate 120 97)) [0, 0, 0, 0]).length := by
  have h : (customID (.follow (.strct []))
      (some (List.replicate 120 97)) [0, 0, 0, 0]).length = 127 := by
    simp [customID, marshal, encode, BtnAction.tag, BtnAction.payload, followUpValue]
  exact ⟨h, by rw [h]; norm_num⟩

/-- C2 (amended): `customID` performs no length check at all: for every
button state it returns the concatenation of the marshalled routing
prefix, the action tag byte, the marshalled payload and the nonce,
whatever the total length; the opaque-identifier budget is not enforced at
construction time. -/
theorem c2_no_length_check (a : BtnAction) (cmdName : Option (List Nat)) (uuid : List Nat) :
    customID a cmdName uuid
        = marshal (.ptr (cmdName.map .str)) ++ [a.tag] ++ marshal a.payload ++ uuid
      ∧ (customID a cmdName uuid).length
        = (marshal (.ptr (cmdName.map .str))).length + 1 + (marshal a.payload).length
            + uuid.length := by
  refine ⟨rfl, ?_⟩
  simp [customID]
  omega

/-- C3: the pagination boundary behaviour of `moveButtons` for a cursor
satisfying the `limit > 0` invariant: at offset 0 without further results
no controls are produced; at offset 0 with further results home and
previous are disabled and next is enabled; at offset = limit without
further results home and previous are enabled and next is disabled. -/
theorem c3_pagination_boundary (opts : GoValue) (name : Option (List Nat))
    (limit : Int) (u1 u2 u3 : List Nat) (hl : 0 < limit) :
    moveButtons (.ok name) ⟨opts, ⟨limit, 0⟩⟩ false u1 u2 u3 = .ok none
    ∧ (∃ home pv nxt,
        moveButtons (.ok name) ⟨opts, ⟨limit, 0⟩⟩ true u1 u2 u3 = .ok (some (home, pv, nxt))
          ∧ home.disabled = true ∧ pv.disabled = true ∧ nxt.disabled = false)
    ∧ (∃ home pv nxt,
        moveButtons (.ok name) ⟨opts, ⟨limit, limit⟩⟩ false u1 u2 u3 = .ok (some (home, pv, nxt))
          ∧ home.disabled = false ∧ pv.disabled = false ∧ nxt.disabled = true) := by
  refine ⟨by simp [moveButtons], ?_, ?_⟩
  · simp only [moveButtons]
    rw [if_neg (by simp)]
    exact ⟨_, _, _, rfl, by simp, by simp; omega, by simp⟩
  · simp only [moveButtons]
    rw [if_neg (by simp; omega)]
    exact ⟨_, _, _, rfl, by simp; omega, by simp, by simp⟩

/-- C3 witness: the boundary behaviour at the concrete page limit 15. -/
theorem c3_pagination_boundary_witness :
    moveButtons (.ok none) ⟨.strct [], ⟨15, 0⟩⟩ false [] [] [] = .ok none := by
  exact (c3_pagination_boundary (.strct []) none 15 [] [] [] (by norm_num)).1

/-- C7 (counterexample): at offset 0 with limit 15 and a next page, the
controller produces a previous-page cursor with offset `0 - 15 = -15`,
negative, and serializes it into the (disabled) previous control's token —
offsets of produced cursors *can* be negative. -/
theorem c7_negative_offset_counterexample :
    (prevPaginator ⟨.strct [], ⟨15, 0⟩⟩).page.offset = -15
      ∧ (∃ home pv nxt,
          moveButtons (.ok (some [100])) ⟨.strct [], ⟨15, 0⟩⟩ true
              [0, 0, 0, 0] [0, 0, 0, 0] [0, 0, 0, 0]
            = .ok (some (home, pv, nxt))
          ∧ pv.customId
            = customID (.paginate ⟨.strct [], ⟨15, -15⟩⟩) (some [100]) [0, 0, 0, 0])
      ∧ (-15 : Int) < 0 := by
  refine ⟨by simp [prevPaginator], ?_, by norm_num⟩
  simp only [moveButtons]
  rw [if_neg (by simp)]
  refine ⟨_, _, _, rfl, ?_⟩
  simp only [prevPaginator]
  norm_num

/-- C7 (amended): every cursor the controller produces keeps the options
and the strictly positive limit of the input cursor and has offset 0
(home) or the current offset plus or minus the limit (next/previous); the
home and next offsets are never negative, but the previous offset is
`offset - limit`, which is negative exactly when `offset < limit`, in
which case the previous control carrying that serialized cursor is
disabled rather than clamped. -/
theorem c7_cursor_invariant (p : Paginator) (hl : 0 < p.page.limit)
    (ho : 0 ≤ p.page.offset) :
    ((homePaginator p).options = p.options ∧ (prevPaginator p).options = p.options
        ∧ (nextPaginator p).options = p.options)
    ∧ ((homePaginator p).page.limit = p.page.limit
        ∧ (prevPaginator p).page.limit = p.page.limit
        ∧ (nextPaginator p).page.limit = p.page.limit
        ∧ 0 < (homePaginator p).page.limit)
    ∧ ((homePaginator p).page.offset = 0
        ∧ (prevPaginator p).page.offset = p.page.offset - p.page.limit
        ∧ (nextPaginator p).page.offset = p.page.offset + p.page.limit)
    ∧ (0 ≤ (homePaginator p).page.offset ∧ 0 ≤ (nextPaginator p).page.offset)
    ∧ (∀ name hasNext u1 u2 u3 home pv nxt,
        moveButtons (.ok name) p hasNext u1 u2 u3 = .ok (some (home, pv, nxt)) →
        pv.customId = customID (.paginate (prevPaginator p)) name u2
          ∧ (pv.disabled = true ↔ (prevPaginator p).page.offset < 0)) := by
  refine ⟨⟨rfl, rfl, rfl⟩, ⟨rfl, rfl, rfl, hl⟩, ⟨rfl, rfl, rfl⟩,
    ⟨le_refl 0, by simp [nextPaginator]; omega⟩, ?_⟩
  intro name hasNext u1 u2 u3 home pv nxt h
  simp only [moveButtons] at h
  by_cases hc : p.page.offset = 0 ∧ hasNext = false
  · rw [if_pos hc] at h
    simp at h
  · rw [if_neg hc] at h
    simp only [Except.ok.injEq, Option.some.injEq, Prod.mk.injEq] at h
    obtain ⟨-, hpv, -⟩ := h
    subst hpv
    exact ⟨rfl, by simp [prevPaginator]⟩

/-- C7 witness: the amended invariant at the concrete cursor
`{limit 15, offset 30}`. -/
theorem c7_cursor_invariant_witness :
    (prevPaginator ⟨.strct [], ⟨15, 30⟩⟩).page.offset = 30 - 15
      ∧ 0 ≤ (nextPaginator ⟨.strct [], ⟨15, 30⟩⟩).page.offset := by
  have h := c7_cursor_invariant ⟨.strct [], ⟨15, 30⟩⟩ (by norm_num) (by norm_num)
  exact ⟨h.2.2.1.2.1, h.2.2.2.1.2⟩

/-- C6: button dispatch.  (i) tag `'p'` (112) decodes the remainder as a
pagination cursor and the pagination handler's response is delivered by
editing the original message in place; (ii) tag `'f'` (102) decodes the
remainder as follow-up state and the response is posted as a new message
replying to the original; (iii) any other tag yields the error wrapping
`ErrUnrecognizedInteraction` without any handler being consulted (the
result is the same for every handler configuration); (iv) the bot layer
first reads the routing prefix with `ButtonFollowUp`, resolves the target
command (the original message's command when the prefix is absent) and
only then hands the remaining bytes — starting with the action tag — to
`command[T].Button`. -/
theorem c6_button_dispatch :
    (∀ (cmd : Cmd) (rest r : List Nat) (p : Paginator)
        (pg : Paginator → Except Unit Nat) (body : Nat),
        cmd.paginate = some pg →
        decodePaginator cmd.optTy rest = .ok (p, r) →
        pg p = .ok body →
        commandButton cmd (112 :: rest) = .ok (.editOriginal body))
    ∧ (∀ (cmd : Cmd) (rest r : List Nat) (opts : GoValue) (body : Nat),
        decodeFollowUp cmd.optTy rest = .ok (opts, r) →
        responseBody cmd opts = .ok body →
        commandButton cmd (102 :: rest) = .ok (.replyToOriginal body))
    ∧ (∀ (cmd : Cmd) (a : Nat) (rest : List Nat), a ≠ 112 → a ≠ 102 →
        commandButton cmd (a :: rest) = .error .unrecognized)
    ∧ (∀ (registry : List (List Nat × Cmd)) (origName customId pfx' rest : List Nat)
        (pfx : Option (List Nat)) (cmd : Cmd),
        ButtonFollowUp customId = .ok (pfx, rest) →
        pfx.getD origName = pfx' →
        lookupCmd registry pfx' = some cmd →
        botButtonDispatch registry origName customId
          = match commandButton cmd rest with
            | .error e => .error (.cmdErr e)
            | .ok eff => .ok eff) := by
  refine ⟨?_, ?_, ?_, ?_⟩
  · intro cmd rest r p pg body hpg hdec hcall
    simp only [commandButton, if_pos rfl, if_true, hdec, hpg, hcall]
  · intro cmd rest r opts body hdec hbody
    have h112 : (102 : Nat) ≠ 112 := by norm_num
    simp only [commandButton, if_neg h112, if_pos rfl, if_true, hdec, hbody]
  · intro cmd a rest ha hf
    simp only [commandButton, if_neg ha, if_neg hf]
  · intro registry origName customId pfx' rest pfx cmd hbf hname hlook
    simp only [botButtonDispatch, hbf, hname, hlook]

/-- C6 witness: a command with a paginate handler, a `'p'` token whose
payload decodes to the cursor `{limit 3, offset 0}`, and an unknown tag
99. -/
theorem c6_button_dispatch_witness :
    commandButton ⟨.strct [], none, some (fun _ => .ok 5), some 3⟩
        (112 :: [0, 0, 0, 3, 0, 0, 0, 0]) = .ok (.editOriginal 5)
      ∧ commandButton ⟨.strct [], none, some (fun _ => .ok 5), some 3⟩ [99]
        = .error .unrecognized := by
  constructor
  · refine c6_button_dispatch.1 _ [0, 0, 0, 3, 0, 0, 0, 0] [] ⟨.strct [], ⟨3, 0⟩⟩
      (fun _ => .ok 5) 5 rfl ?_ rfl
    simp [decodePaginator, decodeValue, int32ofBytes]
  · exact c6_button_dispatch.2.2.1 _ 99 [] (by norm_num) (by norm_num)

/-- C8 (counterexample): when the decoded options have a populated
`pokemon` subcommand whose field is not focused, the dex autocomplete
handler fails with an error wrapping `ErrCommandFormat` — not
`ErrUnrecognizedInteraction` as the claim states. -/
theorem c8_wraps_commandFormat_counterexample :
    dexAutocomplete (fun _ => []) ⟨some ⟨⟨"", false⟩⟩⟩ = .error .commandFormat
      ∧ CmdSentinel.commandFormat ≠ CmdSentinel.unrecognizedInteraction := by
  exact ⟨rfl, by simp⟩

/-- C8 (amended): for every autocomplete request whose decoded options
have no populated subcommand or whose recognized field is not focused,
the dex autocomplete handler returns an error wrapping `ErrCommandFormat`
rather than a suggestion list. -/
theorem c8_unfocused_yields_commandFormat (search : String → List String)
    (opt : DexOptions)
    (h : opt.pokemon = none
      ∨ ∃ sub, opt.pokemon = some sub ∧ sub.name.focused = false) :
    dexAutocomplete search opt = .error .commandFormat := by
  rcases h with h | ⟨sub, hs, hf⟩
  · simp [dexAutocomplete, h]
  · simp [dexAutocomplete, hs, hf]

/-- C8 witness: an options value with no subcommand populated. -/
theorem c8_unfocused_yields_commandFormat_witness :
    dexAutocomplete (fun _ => []) ⟨none⟩ = .error .commandFormat := by
  exact c8_unfocused_yields_commandFormat (fun _ => []) ⟨none⟩ (Or.inl rfl)

/-- Helper for C9: if some node's name is not in the schema's tag map,
`decodeOptions` fails, whatever the current structure contents. -/
theorem decodeOptions_unknown (schema : List (Option String × FTy)) (node : ONode)
    (hunk : lookupIdx schema node.name = none) :
    ∀ (nodes : List ONode) (cur : List FVal), node ∈ nodes →
      ∃ e, decodeOptions schema cur nodes = .error e := by
  intro nodes
  induction nodes with
  | nil =>
    intro cur h
    simp at h
  | cons hd rest ihr =>
    intro cur hmem
    rw [List.mem_cons] at hmem
    rcases hmem with heq | hmem
    · subst heq
      exact ⟨.unknownName node.name, by simp only [decodeOptions, hunk]⟩
    · cases hl : lookupIdx schema hd.name with
      | none => exact ⟨.unknownName hd.name, by simp only [decodeOptions, hl]⟩
      | some i =>
        cases hg : schema.get? i with
        | none =>
          exact ⟨.unknownName hd.name, by simp only [decodeOptions, hl, hg]⟩
        | some pr =>
          obtain ⟨tag, ty⟩ := pr
          cases hc : cur.get? i with
          | none =>
            exact ⟨.unknownName hd.name, by simp only [decodeOptions, hl, hg, hc]⟩
          | some old =>
            cases ha : applyNode ty old hd with
            | error e =>
              exact ⟨e, by simp only [decodeOptions, hl, hg, hc, ha]⟩
            | ok newv =>
              obtain ⟨e, he⟩ := ihr (cur.set i newv) hmem
              exact ⟨e, by simp only [decodeOptions, hl, hg, hc, ha, he]⟩

/-- C9: an option tree containing a node whose name is not declared in the
target structure's `option` tags makes `decodeOptions` return an error
(every `OErr` wraps `ErrDecodeOption`); the node is never skipped, and
`command[T].Handle` fails before invoking any handler — its result is the
same error for every handler. -/
theorem c9_unknown_option_rejected (schema : List (Option String × FTy))
    (cur : List FVal) (nodes : List ONode) (node : ONode)
    (hmem : node ∈ nodes) (hunk : lookupIdx schema node.name = none) :
    (∃ e, decodeOptions schema cur nodes = .error e)
      ∧ ∃ e, ∀ (handler : List FVal → Except OErr Nat),
          commandHandle schema nodes handler = .error e := by
  refine ⟨decodeOptions_unknown schema node hunk nodes cur hmem, ?_⟩
  obtain ⟨e, he⟩ :=
    decodeOptions_unknown schema node hunk nodes (zeroFields schema) hmem
  exact ⟨e, fun handler => by simp only [commandHandle, he]⟩

/-- C9 witness: a schema declaring only the tag `"a"` rejects a node named
`"b"`. -/
theorem c9_unknown_option_rejected_witness :
    ∃ e, decodeOptions [(some "a", .fstring)] [.vstring ""]
        [⟨"b", .string, "x", 0, false, false, []⟩] = .error e := by
  refine (c9_unknown_option_rejected [(some "a", .fstring)] [.vstring ""]
    [⟨"b", .string, "x", 0, false, false, []⟩]
    ⟨"b", .string, "x", 0, false, false, []⟩ (by simp) ?_).1
  simp [lookupIdx]
